import Mathlib

/-!
Shallow embedding of the `envparse` parsing core (`src/parse.rs`,
`src/privat.rs`).  Bytes are modelled as `Nat` (their ASCII codes), byte
slices as `List Nat`, `u128` as `Nat` with explicit `≤ 2^128 - 1` overflow
checks, and `i128` as `Int` with explicit range checks, mirroring the
checked arithmetic of the source.
-/

set_option maxHeartbeats 1000000

/-- Error type mirroring `ParseError` in `src/parse.rs`. -/
inductive ParseError where
  | Empty
  | UnexpectedSign
  | InvalidDigit
  | NoDigits
  | IntOverflow
  | OutOfRange
  | UnknownBoolValue
deriving DecidableEq, Repr

instance {ε α : Type} [DecidableEq ε] [DecidableEq α] : DecidableEq (Except ε α)
  | .ok a, .ok b => if h : a = b then .isTrue (by rw [h]) else .isFalse (by simp [h])
  | .ok _, .error _ => .isFalse (by simp)
  | .error _, .ok _ => .isFalse (by simp)
  | .error e, .error f => if h : e = f then .isTrue (by rw [h]) else .isFalse (by simp [h])

/-- Byte list of an ASCII string, for concrete test inputs. -/
def strB (s : String) : List Nat := s.data.map Char.toNat

/-- Maximum value of `u128`. -/
def U128MAX : Nat := 2 ^ 128 - 1

/-- The value of `i128::MAX` as a `Nat` (`u128` magnitude). -/
def I128MAXn : Nat := 2 ^ 127 - 1

/-- The constant `I128_MIN_MAGNITUDE = (i128::MAX as u128) + 1` from `parse_signed`. -/
def I128_MIN_MAGNITUDE : Nat := 2 ^ 127

/-- The value of `i128::MIN`. -/
def I128MIN : Int := -(2 ^ 127)

/-- The value of `i128::MAX`. -/
def I128MAX : Int := 2 ^ 127 - 1

/-- Rust `u8::is_ascii_whitespace`: space, tab, LF, FF, CR. -/
def isWs (b : Nat) : Bool := b == 32 || b == 9 || b == 10 || b == 12 || b == 13

/-- The forward loop of `trim_ws` (`while start < s.len() && ws(s[start])`),
made structural with a fuel argument; `trim_ws` passes fuel `s.length`, which
the loop can never exhaust since each step increments `start` toward
`s.length`. -/
def fwdScan (s : List Nat) (fuel start : Nat) : Nat :=
  match fuel with
  | 0 => start
  | f + 1 => if start < s.length ∧ isWs (s.getD start 0) then fwdScan s f (start + 1) else start

/-- The backward loop of `trim_ws` (`while end > start && ws(s[end])`), made
structural with a fuel argument; `trim_ws` passes fuel `s.length`, which the
loop can never exhaust since each step decrements `e` toward `start`. -/
def backScan (s : List Nat) (fuel start e : Nat) : Nat :=
  match fuel with
  | 0 => e
  | f + 1 => if start < e ∧ isWs (s.getD e 0) then backScan s f start (e - 1) else e

/-- Embedding of `trim_ws` from `src/parse.rs`. -/
def trim_ws (s : List Nat) : Option (Nat × Nat) :=
  if s.length = 0 then none
  else
    let start := fwdScan s s.length 0
    if start = s.length then none
    else
      let e := backScan s s.length start (s.length - 1) + 1
      if e ≤ start then none else some (start, e)

/-- The digit-value match from the accumulation loop of `number_parse`
(`(b'0'..=b'1', 2) | (b'0'..=b'7', 8) | (b'0'..=b'9', 10 | 16)`, the
hex-letter arms); `none` means the byte is not a digit of the radix. -/
def digitVal (d radix : Nat) : Option Nat :=
  if (48 ≤ d ∧ d ≤ 49 ∧ radix = 2) ∨ (48 ≤ d ∧ d ≤ 55 ∧ radix = 8) ∨
      (48 ≤ d ∧ d ≤ 57 ∧ (radix = 10 ∨ radix = 16)) then some (d - 48)
  else if 97 ≤ d ∧ d ≤ 102 ∧ radix = 16 then some (d - 97 + 10)
  else if 65 ≤ d ∧ d ≤ 70 ∧ radix = 16 then some (d - 65 + 10)
  else none

/-- The digit accumulation loop of `number_parse`: `_` is skipped, other
non-digits fail with `InvalidDigit`, and the `accum * radix + value` step is
overflow-checked against `u128` exactly as `checked_mul`/`checked_add` are.
Returns the accumulator together with the `ever_saw_digits` flag. -/
def numLoop (radix accum : Nat) (sawDigits : Bool) : List Nat → Except ParseError (Nat × Bool)
  | [] => .ok (accum, sawDigits)
  | d :: rest =>
    if d = 95 then numLoop radix accum sawDigits rest
    else
      match digitVal d radix with
      | none => .error .InvalidDigit
      | some value =>
        if accum * radix > U128MAX then .error .IntOverflow
        else if accum * radix + value > U128MAX then .error .IntOverflow
        else numLoop radix (accum * radix + value) true rest

/-- The radix-prefix detection of `number_parse` (`(b'0', b'x') | (b'0',
b'X') => (16, 2)` etc.) on the sign-stripped bytes; the `pos + 2 <= end`
guard is subsumed by the two-byte patterns. -/
def radixSplit (t : List Nat) : Nat × List Nat :=
  match t with
  | 48 :: 120 :: r => (16, r)
  | 48 :: 88 :: r => (16, r)
  | 48 :: 111 :: r => (8, r)
  | 48 :: 79 :: r => (8, r)
  | 48 :: 98 :: r => (2, r)
  | 48 :: 66 :: r => (2, r)
  | _ => (10, t)

/-- Sign-stripped, trimmed part of `number_parse`: the `pos == end` check
(`NoDigits`), radix-prefix detection, the digit loop, and the final
`ever_saw_digits` check. -/
def afterSign (t : List Nat) (neg : Bool) : Except ParseError (Nat × Bool) :=
  if t.isEmpty then .error .NoDigits
  else
    match numLoop (radixSplit t).1 0 false (radixSplit t).2 with
    | .error e => .error e
    | .ok (accum, saw) => if saw then .ok (accum, neg) else .error .NoDigits

/-- Sign handling of `number_parse` on the trimmed bytes: a leading `-` is
`UnexpectedSign` unless `skip_sign`, `+` is always consumed. -/
def numToken (t : List Nat) (skip_sign : Bool) : Except ParseError (Nat × Bool) :=
  match t with
  | 45 :: rest => if skip_sign then afterSign rest true else .error .UnexpectedSign
  | 43 :: rest => afterSign rest false
  | _ => afterSign t false

/-- The byte range `s[i..e]`. -/
def byteSlice (s : List Nat) (i e : Nat) : List Nat := (s.take e).drop i

/-- Embedding of `number_parse` from `src/parse.rs`: trim, then tokenize the
trimmed range. -/
def number_parse (s : List Nat) (skip_sign : Bool) : Except ParseError (Nat × Bool) :=
  match trim_ws s with
  | none => .error .Empty
  | some (start, e) => numToken (byteSlice s start e) skip_sign

/-- The two trailing bound checks shared by `parse_unsigned` (`if val <
incl_min ...; if val > incl_max ...`). -/
def boundU (incl_min incl_max : Nat) (clamp : Bool) (val : Nat) : Except ParseError Nat :=
  if val < incl_min then (if clamp then .ok incl_min else .error .OutOfRange)
  else if val > incl_max then (if clamp then .ok incl_max else .error .OutOfRange)
  else .ok val

/-- Embedding of `parse_unsigned` from `src/parse.rs`. -/
def parse_unsigned (s : List Nat) (incl_min incl_max : Nat) (clamp : Bool) :
    Except ParseError Nat :=
  match number_parse s false with
  | .ok (n, _) => boundU incl_min incl_max clamp n
  | .error .IntOverflow =>
    if clamp then boundU incl_min incl_max clamp incl_max else .error .IntOverflow
  | .error .UnexpectedSign =>
    if clamp then boundU incl_min incl_max clamp incl_min else .error .UnexpectedSign
  | .error e => .error e

/-- The two trailing bound checks of `parse_signed`. -/
def boundI (incl_min incl_max : Int) (clamp : Bool) (val : Int) : Except ParseError Int :=
  if val < incl_min then (if clamp then .ok incl_min else .error .OutOfRange)
  else if val > incl_max then (if clamp then .ok incl_max else .error .OutOfRange)
  else .ok val

/-- Embedding of `parse_signed` from `src/parse.rs`; note that a tokenizer
error (including `IntOverflow`) is propagated by the `Err(e) => return Err(e)`
arm. -/
def parse_signed (s : List Nat) (incl_min incl_max : Int) (clamp : Bool) :
    Except ParseError Int :=
  match number_parse s true with
  | .error e => .error e
  | .ok (n, neg) =>
    if neg then
      if n = I128_MIN_MAGNITUDE then boundI incl_min incl_max clamp I128MIN
      else if n ≤ I128MAXn then boundI incl_min incl_max clamp (-(n : Int))
      else if clamp then boundI incl_min incl_max clamp incl_min
      else .error .OutOfRange
    else
      if n ≤ I128MAXn then boundI incl_min incl_max clamp (n : Int)
      else if clamp then boundI incl_min incl_max clamp incl_max
      else .error .OutOfRange

/-- The length match of `parse_bool` over the trimmed range, as a match on
the sliced byte list (whose length is `e.saturating_sub(i)` for every span
produced by `trim_ws`); each arm lists the case-insensitive byte tests of the
source. -/
def boolMatch (t : List Nat) : Except ParseError Bool :=
  match t with
    | [] => .error .Empty
    | [a] =>
      if a = 49 ∨ a = 116 ∨ a = 84 ∨ a = 121 ∨ a = 89 then .ok true
      else if a = 48 ∨ a = 102 ∨ a = 70 ∨ a = 110 ∨ a = 78 then .ok false
      else .error .UnknownBoolValue
    | [a, b] =>
      if (a = 110 ∨ a = 78) ∧ (b = 111 ∨ b = 79) then .ok false
      else if (a = 111 ∨ a = 79) ∧ (b = 110 ∨ b = 78) then .ok true
      else .error .UnknownBoolValue
    | [a, b, c] =>
      if (a = 111 ∨ a = 79) ∧ (b = 102 ∨ b = 70) ∧ (c = 102 ∨ c = 70) then .ok false
      else if (a = 121 ∨ a = 89) ∧ (b = 101 ∨ b = 69) ∧ (c = 115 ∨ c = 83) then .ok true
      else .error .UnknownBoolValue
    | [a, b, c, d] =>
      if (a = 116 ∨ a = 84) ∧ (b = 114 ∨ b = 82) ∧ (c = 117 ∨ c = 85) ∧ (d = 101 ∨ d = 69) then
        .ok true
      else .error .UnknownBoolValue
    | [a, b, c, d, f] =>
      if (a = 102 ∨ a = 70) ∧ (b = 97 ∨ b = 65) ∧ (c = 108 ∨ c = 76) ∧ (d = 115 ∨ d = 83) ∧
          (f = 101 ∨ f = 69) then .ok false
      else .error .UnknownBoolValue
    | _ => .error .UnknownBoolValue

/-- Embedding of `parse_bool` from `src/parse.rs`. -/
def parse_bool (s : List Nat) : Except ParseError Bool :=
  match trim_ws s with
  | none => .error .Empty
  | some (i, e) => boolMatch (byteSlice s i e)

/-- Width-generic embedding of the `parse_bounded` unsigned adapters of
`src/privat.rs` (`u8`/`u16`/`u32`/`u64`/`u128` are `w = 8/16/32/64/128`):
absent bounds default to `0` and the width maximum, an `Ok` value is narrowed
to `w` bits (the semantics of Rust's `as uW` cast), `Err(Empty)` yields the
caller default, every other error yields `None`. -/
def parse_bounded_u (w : Nat) (s : List Nat) (dflt : Option Nat) (mn mx : Option Nat)
    (clamp : Bool) : Option Nat :=
  match parse_unsigned s (mn.getD 0) (mx.getD (2 ^ w - 1)) clamp with
  | .ok v => some (v % 2 ^ w)
  | .error .Empty => dflt
  | .error _ => none

/-- Rust `as iW` narrowing cast of an `i128` value to `w` bits (two's
complement wraparound). -/
def castI (w : Nat) (v : Int) : Int := (v + 2 ^ (w - 1)) % (2 ^ w : Nat) - 2 ^ (w - 1)

/-- Width-generic embedding of the `parse_bounded` signed adapters of
`src/privat.rs` (`i8`/…/`i128` are `w = 8/…/128`). -/
def parse_bounded_i (w : Nat) (s : List Nat) (dflt : Option Int) (mn mx : Option Int)
    (clamp : Bool) : Option Int :=
  match parse_signed s (mn.getD (-(2 ^ (w - 1) : Int))) (mx.getD ((2 ^ (w - 1) : Int) - 1))
      clamp with
  | .ok v => some (castI w v)
  | .error .Empty => dflt
  | .error _ => none

/-- The `parsers` unsigned functions of `src/privat.rs`: full-width bounds, no
clamping, caller default on `Empty`. -/
def parsers_u (w : Nat) (s : List Nat) (dflt : Option Nat) : Option Nat :=
  parse_bounded_u w s dflt none none false

/-- The `parsers` signed functions of `src/privat.rs`. -/
def parsers_i (w : Nat) (s : List Nat) (dflt : Option Int) : Option Int :=
  parse_bounded_i w s dflt none none false

/-- Embedding of `parsers::bool` from `src/privat.rs`. -/
def parsers_bool (s : List Nat) (dflt : Option Bool) : Option Bool :=
  match parse_bool s with
  | .ok v => some v
  | .error .Empty => dflt
  | .error _ => none

/-- ASCII lower-casing of a byte (Rust `u8::to_ascii_lowercase`). -/
def toLowerB (b : Nat) : Nat := if 65 ≤ b ∧ b ≤ 90 then b + 32 else b

/-- Modelled from the spec: the four-byte whitespace set the spec's trimmer
contract names (space, tab, CR, LF) - to be compared with the code's `isWs`. -/
def specWs (b : Nat) : Bool := b == 32 || b == 9 || b == 13 || b == 10

/-- Modelled from the spec: `hex_digit := [0-9a-fA-F]` of the §6 grammar. -/
def specHexDigit (d : Nat) : Bool := (48 ≤ d && d ≤ 57) || (97 ≤ d && d ≤ 102) || (65 ≤ d && d ≤ 70)

/-- Modelled from the spec: `oct_digit := [0-7]`. -/
def specOctDigit (d : Nat) : Bool := 48 ≤ d && d ≤ 55

/-- Modelled from the spec: `bin_digit := [0-1]`. -/
def specBinDigit (d : Nat) : Bool := 48 ≤ d && d ≤ 49

/-- Modelled from the spec: `dec_digit := [0-9]`. -/
def specDecDigit (d : Nat) : Bool := 48 ≤ d && d ≤ 57

/-- Digit class of a radix (2, 8, 16 as in the §6 grammar, everything else
read as decimal). -/
def specDigit (radix d : Nat) : Bool :=
  if radix = 16 then specHexDigit d
  else if radix = 8 then specOctDigit d
  else if radix = 2 then specBinDigit d
  else specDecDigit d

/-- Modelled from the spec: a §6 digit run `digit (digit|'_')*` - the first
character must be a digit of the radix, underscores may only follow it. -/
def specRun (radix : Nat) (l : List Nat) : Bool :=
  match l with
  | [] => false
  | d :: rest => specDigit radix d && rest.all (fun c => specDigit radix c || c == 95)

/-- Modelled from the spec: `prefixed_int | dec_int` of the §6 grammar. -/
def specBody (l : List Nat) : Bool :=
  (match l with
   | 48 :: p :: rest =>
     if p = 120 ∨ p = 88 then specRun 16 rest
     else if p = 111 ∨ p = 79 then specRun 8 rest
     else if p = 98 ∨ p = 66 then specRun 2 rest
     else false
   | _ => false) || specRun 10 l

/-- Modelled from the spec: `integer := sign? (prefixed_int | dec_int)` of the
§6 grammar, with `-` only legal when signed parsing is requested. -/
def specInteger (l : List Nat) (signedReq : Bool) : Bool :=
  match l with
  | 43 :: rest => specBody rest
  | 45 :: rest => signedReq && specBody rest
  | _ => specBody l

/-- The sign split on the trimmed bytes (`-`/`+` consumed, flag true for `-`). -/
def signSplit (t : List Nat) : Bool × List Nat :=
  match t with
  | 45 :: rest => (true, rest)
  | 43 :: rest => (false, rest)
  | _ => (false, t)

/-- The digit run of the language the tokenizer actually accepts: every byte a
digit of the radix or `'_'`, with at least one digit; underscores may appear
anywhere in the run, including before the first digit. -/
def amendedRun (radix : Nat) (l : List Nat) : Bool :=
  l.all (fun c => specDigit radix c || c == 95) && l.any (fun c => specDigit radix c)

/-- Body of the language the tokenizer actually accepts: optional radix
prefix, then an `amendedRun` of that radix. -/
def amendedBody (t : List Nat) : Bool :=
  amendedRun (radixSplit t).1 (radixSplit t).2

/-- The language the tokenizer actually accepts (before the magnitude-fits
condition): optional sign (`-` only when allowed), optional prefix, digit run
with underscores permitted anywhere. -/
def amendedInteger (t : List Nat) (signAllowed : Bool) : Bool :=
  match t with
  | 45 :: rest => signAllowed && amendedBody rest
  | 43 :: rest => amendedBody rest
  | _ => amendedBody t

/-- Unchecked value of a digit run: the fold `a * radix + value` skipping
underscores, without any overflow check. -/
def foldVal (radix a : Nat) : List Nat → Nat
  | [] => a
  | d :: rest =>
    if d = 95 then foldVal radix a rest
    else foldVal radix (a * radix + (digitVal d radix).getD 0) rest

/-- Mathematical magnitude denoted by a token of the accepted language. -/
def amendedMagnitude (t : List Nat) : Nat :=
  foldVal (radixSplit (signSplit t).2).1 0 (radixSplit (signSplit t).2).2

/-- Whether a token of the accepted language carries a `-` sign. -/
def amendedNeg (t : List Nat) : Bool := (signSplit t).1

/-! Helper lemmas about the trim loops. -/

theorem fwdScan_ge (s : List Nat) : ∀ fuel start, start ≤ fwdScan s fuel start := by
  intro fuel
  induction fuel with
  | zero => intro start; simp [fwdScan]
  | succ f ih =>
    intro start
    simp only [fwdScan]
    split
    · exact le_trans (Nat.le_succ start) (ih (start + 1))
    · exact le_refl start

theorem fwdScan_le_length (s : List Nat) :
    ∀ fuel start, start ≤ s.length → fwdScan s fuel start ≤ s.length := by
  intro fuel
  induction fuel with
  | zero => intro start h; simpa [fwdScan] using h
  | succ f ih =>
    intro start h
    simp only [fwdScan]
    split
    · rename_i hc; exact ih (start + 1) hc.1
    · exact h

theorem fwdScan_ws (s : List Nat) :
    ∀ fuel start j, start ≤ j → j < fwdScan s fuel start → isWs (s.getD j 0) = true := by
  intro fuel
  induction fuel with
  | zero => intro start j h1 h2; simp [fwdScan] at h2; omega
  | succ f ih =>
    intro start j h1 h2
    simp only [fwdScan] at h2
    split at h2
    · rename_i hc
      rcases Nat.eq_or_lt_of_le h1 with h | h
      · exact h ▸ hc.2
      · exact ih (start + 1) j h h2
    · omega

theorem fwdScan_stop (s : List Nat) :
    ∀ fuel start, s.length ≤ fuel + start → fwdScan s fuel start < s.length →
      isWs (s.getD (fwdScan s fuel start) 0) = false := by
  intro fuel
  induction fuel with
  | zero => intro start h1 h2; simp only [fwdScan] at h2 ⊢; omega
  | succ f ih =>
    intro start h1 h2
    by_cases hc : start < s.length ∧ isWs (s.getD start 0) = true
    · simp only [fwdScan, if_pos hc] at h2 ⊢
      exact ih (start + 1) (by omega) h2
    · simp only [fwdScan, if_neg hc] at h2 ⊢
      rcases Bool.eq_false_or_eq_true (isWs (s.getD start 0)) with h | h
      · exact absurd ⟨h2, h⟩ hc
      · exact h

theorem backScan_le (s : List Nat) (start : Nat) :
    ∀ fuel e, backScan s fuel start e ≤ e := by
  intro fuel
  induction fuel with
  | zero => intro e; simp [backScan]
  | succ f ih =>
    intro e
    simp only [backScan]
    split
    · exact le_trans (ih (e - 1)) (Nat.sub_le e 1)
    · exact le_refl e

theorem backScan_ge (s : List Nat) (start : Nat) :
    ∀ fuel e, start ≤ e → start ≤ backScan s fuel start e := by
  intro fuel
  induction fuel with
  | zero => intro e h; simpa [backScan] using h
  | succ f ih =>
    intro e h
    simp only [backScan]
    split
    · rename_i hc; exact ih (e - 1) (by omega)
    · exact h

theorem backScan_stop (s : List Nat) (start : Nat) :
    ∀ fuel e, e ≤ fuel + start → start < backScan s fuel start e →
      isWs (s.getD (backScan s fuel start e) 0) = false := by
  intro fuel
  induction fuel with
  | zero => intro e h1 h2; simp only [backScan] at h2 ⊢; omega
  | succ f ih =>
    intro e h1 h2
    by_cases hc : start < e ∧ isWs (s.getD e 0) = true
    · simp only [backScan, if_pos hc] at h2 ⊢
      exact ih (e - 1) (by omega) h2
    · simp only [backScan, if_neg hc] at h2 ⊢
      rcases Bool.eq_false_or_eq_true (isWs (s.getD e 0)) with h | h
      · exact absurd ⟨h2, h⟩ hc
      · exact h

theorem backScan_ws (s : List Nat) (start : Nat) :
    ∀ fuel e j, backScan s fuel start e < j → j ≤ e → isWs (s.getD j 0) = true := by
  intro fuel
  induction fuel with
  | zero => intro e j h1 h2; simp [backScan] at h1; omega
  | succ f ih =>
    intro e j h1 h2
    simp only [backScan] at h1
    split at h1
    · rename_i hc
      rcases Nat.eq_or_lt_of_le h2 with h | h
      · exact h ▸ hc.2
      · exact ih (e - 1) j h1 (by omega)
    · omega

theorem getD_lt (l : List Nat) (j : Nat) (h : j < l.length) : l.getD j 0 = l[j] := by
  rw [List.getD_eq_getElem?_getD, List.getElem?_eq_getElem h]; rfl

theorem trim_none_iff (s : List Nat) : trim_ws s = none ↔ ∀ b ∈ s, isWs b = true := by
  constructor
  · intro h
    simp only [trim_ws] at h
    split_ifs at h with h0 h1 h2
    · intro b hb
      rw [List.length_eq_zero] at h0
      subst h0
      simp at hb
    · intro b hb
      obtain ⟨j, hj, rfl⟩ := List.mem_iff_getElem.mp hb
      have hw := fwdScan_ws s s.length 0 j (Nat.zero_le j) (by omega)
      rwa [getD_lt s j hj] at hw
    · exfalso
      have hle := fwdScan_le_length s s.length 0 (Nat.zero_le _)
      have hge := backScan_ge s (fwdScan s s.length 0) s.length (s.length - 1) (by omega)
      omega
  · intro hws
    unfold trim_ws
    by_cases h0 : s.length = 0
    · simp [h0]
    · have hall : fwdScan s s.length 0 = s.length := by
        by_contra hne
        have hlt : fwdScan s s.length 0 < s.length :=
          lt_of_le_of_ne (fwdScan_le_length s s.length 0 (Nat.zero_le _)) hne
        have hstop := fwdScan_stop s s.length 0 (by omega) hlt
        rw [getD_lt s _ hlt] at hstop
        have := hws _ (List.getElem_mem hlt)
        rw [this] at hstop
        simp at hstop
      simp [if_neg h0, hall]

theorem trim_some_spec (s : List Nat) (i e2 : Nat) (h : trim_ws s = some (i, e2)) :
    i < e2 ∧ e2 ≤ s.length ∧ isWs (s.getD i 0) = false ∧ isWs (s.getD (e2 - 1) 0) = false ∧
      (∀ j, j < i → isWs (s.getD j 0) = true) ∧
      (∀ j, e2 ≤ j → j < s.length → isWs (s.getD j 0) = true) := by
  simp only [trim_ws] at h
  split_ifs at h with h0 h1 h2
  simp only [Option.some.injEq, Prod.mk.injEq] at h
  obtain ⟨rfl, rfl⟩ := h
  have hle := fwdScan_le_length s s.length 0 (Nat.zero_le _)
  have hblo := backScan_ge s (fwdScan s s.length 0) s.length (s.length - 1) (by omega)
  have hbhi := backScan_le s (fwdScan s s.length 0) s.length (s.length - 1)
  refine ⟨by omega, by omega, ?_, ?_, ?_, ?_⟩
  · exact fwdScan_stop s s.length 0 (by omega) (by omega)
  · simp only [Nat.add_sub_cancel]
    rcases Nat.eq_or_lt_of_le hblo with hb | hb
    · rw [← hb]
      exact fwdScan_stop s s.length 0 (by omega) (by omega)
    · exact backScan_stop s (fwdScan s s.length 0) s.length (s.length - 1) (by omega) hb
  · intro j hj
    exact fwdScan_ws s s.length 0 j (Nat.zero_le j) hj
  · intro j hj1 hj2
    exact backScan_ws s (fwdScan s s.length 0) s.length (s.length - 1) j (by omega) (by omega)

theorem byteSlice_length (s : List Nat) (i e2 : Nat) (h : e2 ≤ s.length) :
    (byteSlice s i e2).length = e2 - i := by
  simp [byteSlice]
  omega

theorem byteSlice_ne_nil (s : List Nat) (i e2 : Nat) (h : trim_ws s = some (i, e2)) :
    byteSlice s i e2 ≠ [] := by
  have hsp := trim_some_spec s i e2 h
  have hlen := byteSlice_length s i e2 hsp.2.1
  intro hnil
  rw [hnil] at hlen
  simp at hlen
  omega

theorem parse_bool_some (s : List Nat) (i e2 : Nat) (h : trim_ws s = some (i, e2)) :
    parse_bool s = boolMatch (byteSlice s i e2) := by
  unfold parse_bool
  rw [h]

theorem boolMatch_ne_empty (t : List Nat) (ht : t ≠ []) : boolMatch t ≠ .error .Empty := by
  rcases t with _ | ⟨a, _ | ⟨b, _ | ⟨c, _ | ⟨d, _ | ⟨f, _ | ⟨g, tl⟩⟩⟩⟩⟩⟩
  · exact absurd rfl ht
  all_goals simp only [boolMatch]
  all_goals first
    | (split_ifs <;> simp)
    | simp

theorem parse_bool_ne_empty (s : List Nat) (i e2 : Nat) (h : trim_ws s = some (i, e2)) :
    parse_bool s ≠ .error .Empty := by
  rw [parse_bool_some s i e2 h]
  exact boolMatch_ne_empty _ (byteSlice_ne_nil s i e2 h)

/-- C2 counterexample: the input byte 0x0C (form feed) lies outside the
four-byte set the claim names (`specWs`), so the claim demands
`trim_ws [12] = some (0, 1)`; the code treats 0x0C as whitespace
(`is_ascii_whitespace` includes form feed) and returns `none`. -/
theorem c2_trim_counterexample :
    specWs 12 = false ∧ trim_ws [12] = none ∧ trim_ws [12] ≠ some (0, 1) := by
  refine ⟨by decide, by decide, by decide⟩

/-- C2 (amended): `trim_ws` strips exactly the five bytes space (0x20), tab
(0x09), CR (0x0D), LF (0x0A) and form feed (0x0C) — the set `isWs` — from
both ends: it returns `none` exactly when every byte of `s` lies in that set,
and otherwise returns the span from the first to the last byte of `s` outside
that set (both ends of the span are non-whitespace and everything outside the
span is whitespace). -/
theorem c2_trim_characterization (s : List Nat) :
    (trim_ws s = none ↔ ∀ b ∈ s, isWs b = true) ∧
    (∀ i e2, trim_ws s = some (i, e2) →
      i < e2 ∧ e2 ≤ s.length ∧ isWs (s.getD i 0) = false ∧ isWs (s.getD (e2 - 1) 0) = false ∧
        (∀ j, j < i → isWs (s.getD j 0) = true) ∧
        (∀ j, e2 ≤ j → j < s.length → isWs (s.getD j 0) = true)) :=
  ⟨trim_none_iff s, fun i e2 h => trim_some_spec s i e2 h⟩

/-- C2 witness: the span facts at the concrete input `" a\t"`. -/
theorem c2_trim_characterization_witness :
    1 < 2 ∧ 2 ≤ ([32, 97, 9] : List Nat).length ∧
      isWs (([32, 97, 9] : List Nat).getD 1 0) = false ∧
      isWs (([32, 97, 9] : List Nat).getD (2 - 1) 0) = false :=
  have h := (c2_trim_characterization [32, 97, 9]).2 1 2 (by decide)
  ⟨h.1, h.2.1, h.2.2.1, h.2.2.2.1⟩

/-- C10: every span `trim_ws` returns is strictly non-empty (`start < end ≤
len`), both ends of the span are non-whitespace bytes, the trimmed length is
at least 1 (so the sliced range is non-empty), and `parse_bool` returns
`Empty` exactly from the `trim_ws = none` branch — its length-0
`Err(Empty)` arm is unreachable. -/
theorem c10_trim_span_strict (s : List Nat) :
    (∀ i e2, trim_ws s = some (i, e2) →
      i < e2 ∧ e2 ≤ s.length ∧ 1 ≤ e2 - i ∧ isWs (s.getD i 0) = false ∧
        isWs (s.getD (e2 - 1) 0) = false ∧ byteSlice s i e2 ≠ []) ∧
    (parse_bool s = .error .Empty ↔ trim_ws s = none) := by
  constructor
  · intro i e2 h
    have hsp := trim_some_spec s i e2 h
    exact ⟨hsp.1, hsp.2.1, by omega, hsp.2.2.1, hsp.2.2.2.1, byteSlice_ne_nil s i e2 h⟩
  · constructor
    · intro h
      rcases htr : trim_ws s with _ | ⟨i, e2⟩
      · rfl
      · exact absurd h (parse_bool_ne_empty s i e2 htr)
    · intro h
      unfold parse_bool
      rw [h]

/-- C10 witness: instantiated at the concrete input `" a\t"`. -/
theorem c10_trim_span_strict_witness :
    1 < 2 ∧ 2 ≤ ([32, 97, 9] : List Nat).length ∧ 1 ≤ 2 - 1 ∧
      isWs (([32, 97, 9] : List Nat).getD 1 0) = false :=
  have h := (c10_trim_span_strict [32, 97, 9]).1 1 2 (by decide)
  ⟨h.1, h.2.1, h.2.2.1, h.2.2.2.1⟩

/-! Helper lemmas about the bound checks. -/

theorem boundU_ok_bounds (mn mx : Nat) (clamp : Bool) (v w : Nat) (hmm : mn ≤ mx)
    (h : boundU mn mx clamp v = .ok w) : mn ≤ w ∧ w ≤ mx := by
  unfold boundU at h
  split_ifs at h <;> simp_all <;> omega

theorem boundI_ok_bounds (mn mx : Int) (clamp : Bool) (v w : Int) (hmm : mn ≤ mx)
    (h : boundI mn mx clamp v = .ok w) : mn ≤ w ∧ w ≤ mx := by
  unfold boundI at h
  split_ifs at h <;> simp_all <;> omega

theorem boundU_of_mem (mn mx : Nat) (clamp : Bool) (v : Nat) (h1 : mn ≤ v) (h2 : v ≤ mx) :
    boundU mn mx clamp v = .ok v := by
  unfold boundU
  split_ifs <;> first | rfl | omega

theorem boundI_of_mem (mn mx : Int) (clamp : Bool) (v : Int) (h1 : mn ≤ v) (h2 : v ≤ mx) :
    boundI mn mx clamp v = .ok v := by
  unfold boundI
  split_ifs <;> first | rfl | omega

/-- C1 counterexample: on the input `"-0xfffffffffffffffffffffffffffffffff"`
the tokenizer fails with `IntOverflow` after consuming a leading `-`, and
`parse_signed` with `clamp = true` propagates the error instead of returning
the saturated `Ok(incl_min)` the claim demands. -/
theorem c1_signed_overflow_counterexample :
    number_parse (strB "-0xfffffffffffffffffffffffffffffffff") true = .error .IntOverflow ∧
    parse_signed (strB "-0xfffffffffffffffffffffffffffffffff") I128MIN I128MAX true =
      .error .IntOverflow ∧
    parse_signed (strB "-0xfffffffffffffffffffffffffffffffff") I128MIN I128MAX true ≠
      .ok I128MIN :=
  ⟨by decide, by decide, by decide⟩

/-- C1 (amended): whenever the tokenizer fails with `IntOverflow`,
`parse_signed` returns that error unchanged for every bound pair and both
clamp settings — `parse_signed` never saturates a tokenizer-level overflow
(its `Err(e) => return Err(e)` arm covers `IntOverflow`; only magnitudes that
are representable in `u128` but outside the `i128` range are clamped). -/
theorem c1_signed_overflow_propagates (s : List Nat) (mn mx : Int) (clamp : Bool)
    (h : number_parse s true = .error .IntOverflow) :
    parse_signed s mn mx clamp = .error .IntOverflow := by
  unfold parse_signed
  rw [h]

/-- C1 witness: the amended propagation at a concrete overflowing input. -/
theorem c1_signed_overflow_propagates_witness :
    parse_signed (strB "-0xfffffffffffffffffffffffffffffffff") (-7) 9 true =
      .error .IntOverflow :=
  c1_signed_overflow_propagates _ (-7) 9 true (by decide)

/-- C4: the full behaviour table of `parse_unsigned` for `min ≤ max`: an
in-range tokenized magnitude is returned as is; an out-of-range magnitude is
rejected with `OutOfRange` without clamping and saturated to the violated
bound with clamping; with clamping, tokenizer `IntOverflow` yields `Ok(max)`
and `UnexpectedSign` yields `Ok(min)`; every other tokenizer failure, and
every failure without clamping, is returned unchanged. -/
theorem c4_parse_unsigned_table (s : List Nat) (mn mx : Nat) (clamp : Bool)
    (hmm : mn ≤ mx) :
    (∀ m b, number_parse s false = .ok (m, b) →
      (mn ≤ m → m ≤ mx → parse_unsigned s mn mx clamp = .ok m) ∧
      (m < mn → clamp = false → parse_unsigned s mn mx clamp = .error .OutOfRange) ∧
      (m < mn → clamp = true → parse_unsigned s mn mx clamp = .ok mn) ∧
      (mx < m → clamp = false → parse_unsigned s mn mx clamp = .error .OutOfRange) ∧
      (mx < m → clamp = true → parse_unsigned s mn mx clamp = .ok mx)) ∧
    (number_parse s false = .error .IntOverflow → clamp = true →
      parse_unsigned s mn mx clamp = .ok mx) ∧
    (number_parse s false = .error .UnexpectedSign → clamp = true →
      parse_unsigned s mn mx clamp = .ok mn) ∧
    (∀ err, number_parse s false = .error err → clamp = false →
      parse_unsigned s mn mx clamp = .error err) ∧
    (∀ err, number_parse s false = .error err → err ≠ .IntOverflow → err ≠ .UnexpectedSign →
      parse_unsigned s mn mx clamp = .error err) := by
  refine ⟨?_, ?_, ?_, ?_, ?_⟩
  · intro m b h
    have hred : parse_unsigned s mn mx clamp = boundU mn mx clamp m := by
      unfold parse_unsigned
      rw [h]
    refine ⟨?_, ?_, ?_, ?_, ?_⟩
    · intro h1 h2
      rw [hred]
      exact boundU_of_mem mn mx clamp m h1 h2
    · intro h1 h2
      subst h2
      rw [hred]
      unfold boundU
      rw [if_pos h1]
      rfl
    · intro h1 h2
      subst h2
      rw [hred]
      unfold boundU
      rw [if_pos h1]
      rfl
    · intro h1 h2
      subst h2
      rw [hred]
      unfold boundU
      rw [if_neg (by omega), if_pos h1]
      rfl
    · intro h1 h2
      subst h2
      rw [hred]
      unfold boundU
      rw [if_neg (by omega), if_pos h1]
      rfl
  · intro h hc
    subst hc
    unfold parse_unsigned
    rw [h]
    simp only [if_pos rfl]
    exact boundU_of_mem mn mx true mx hmm le_rfl
  · intro h hc
    subst hc
    unfold parse_unsigned
    rw [h]
    simp only [if_pos rfl]
    exact boundU_of_mem mn mx true mn le_rfl hmm
  · intro err h hc
    subst hc
    unfold parse_unsigned
    rw [h]
    cases err <;> rfl
  · intro err h h1 h2
    unfold parse_unsigned
    rw [h]
    cases err <;> first | rfl | (exact absurd rfl h1) | (exact absurd rfl h2)

/-- C4 witness: the clamped overflow row at `parse_unsigned(b"1000", 1, 255, true)`. -/
theorem c4_parse_unsigned_table_witness :
    parse_unsigned (strB "1000") 1 255 true = .ok 255 :=
  (((c4_parse_unsigned_table (strB "1000") 1 255 true (by decide)).1 1000 false
    (by decide)).2.2.2.2) (by decide) rfl

/-- C5: reconstruction of the signed intermediate by `parse_signed` from a
tokenizer success `(m, neg)`: magnitude `2^127` with a sign gives
`i128::MIN`, a signed magnitude up to `i128::MAX` gives `-m`, an unsigned one
gives `m` (each then bound-checked by `boundI`), and any other combination is
`OutOfRange` without clamping, `Ok(incl_min)` (negative direction) or
`Ok(incl_max)` (positive direction) with clamping; including the three
concrete 8-bit boundary cases of the claim. -/
theorem c5_parse_signed_reconstruction :
    (∀ (s : List Nat) (mn mx : Int) (clamp : Bool) (m : Nat) (neg : Bool),
      number_parse s true = .ok (m, neg) → mn ≤ mx →
      (neg = true → m = I128_MIN_MAGNITUDE →
        parse_signed s mn mx clamp = boundI mn mx clamp I128MIN) ∧
      (neg = true → m ≤ I128MAXn →
        parse_signed s mn mx clamp = boundI mn mx clamp (-(m : Int))) ∧
      (neg = false → m ≤ I128MAXn →
        parse_signed s mn mx clamp = boundI mn mx clamp (m : Int)) ∧
      (neg = true → I128_MIN_MAGNITUDE < m → clamp = false →
        parse_signed s mn mx clamp = .error .OutOfRange) ∧
      (neg = true → I128_MIN_MAGNITUDE < m → clamp = true →
        parse_signed s mn mx clamp = .ok mn) ∧
      (neg = false → I128MAXn < m → clamp = false →
        parse_signed s mn mx clamp = .error .OutOfRange) ∧
      (neg = false → I128MAXn < m → clamp = true →
        parse_signed s mn mx clamp = .ok mx)) ∧
    parse_signed (strB "-128") (-128) 127 false = .ok (-128) ∧
    parse_signed (strB "128") (-128) 127 false = .error .OutOfRange ∧
    parse_signed (strB "128") (-128) 127 true = .ok 127 := by
  refine ⟨?_, by decide, by decide, by decide⟩
  intro s mn mx clamp m neg h hmm
  have hred : parse_signed s mn mx clamp =
      (if neg then
        if m = I128_MIN_MAGNITUDE then boundI mn mx clamp I128MIN
        else if m ≤ I128MAXn then boundI mn mx clamp (-(m : Int))
        else if clamp then boundI mn mx clamp mn
        else .error .OutOfRange
      else
        if m ≤ I128MAXn then boundI mn mx clamp (m : Int)
        else if clamp then boundI mn mx clamp mx
        else .error .OutOfRange) := by
    unfold parse_signed
    rw [h]
  have hmaxlt : I128MAXn < I128_MIN_MAGNITUDE := by decide
  refine ⟨?_, ?_, ?_, ?_, ?_, ?_, ?_⟩
  · intro h1 h2
    subst h1
    rw [hred, if_pos rfl, if_pos h2]
  · intro h1 h2
    subst h1
    rw [hred, if_pos rfl, if_neg (by omega), if_pos h2]
  · intro h1 h2
    subst h1
    rw [hred, if_neg (by simp), if_pos h2]
  · intro h1 h2 h3
    subst h1 h3
    rw [hred, if_pos rfl, if_neg (by omega), if_neg (by omega), if_neg (by simp)]
  · intro h1 h2 h3
    subst h1 h3
    rw [hred, if_pos rfl, if_neg (by omega), if_neg (by omega), if_pos rfl]
    exact boundI_of_mem mn mx true mn le_rfl hmm
  · intro h1 h2 h3
    subst h1 h3
    rw [hred, if_neg (by simp), if_neg (by omega), if_neg (by simp)]
  · intro h1 h2 h3
    subst h1 h3
    rw [hred, if_neg (by simp), if_neg (by omega), if_pos rfl]
    exact boundI_of_mem mn mx true mx hmm le_rfl

/-- C5 witness: the negative-magnitude row of the reconstruction at the
concrete input `"-5"`. -/
theorem c5_parse_signed_reconstruction_witness :
    parse_signed (strB "-5") (-128) 127 false = boundI (-128) 127 false (-((5 : Nat) : Int)) :=
  ((c5_parse_signed_reconstruction.1 (strB "-5") (-128) 127 false 5 true
    (by decide) (by decide)).2.1) rfl (by decide)

theorem parse_unsigned_ok_bounds (s : List Nat) (mn mx : Nat) (clamp : Bool) (v : Nat)
    (hmm : mn ≤ mx) (h : parse_unsigned s mn mx clamp = .ok v) : mn ≤ v ∧ v ≤ mx := by
  cases hn : number_parse s false with
  | ok p =>
    obtain ⟨m, b⟩ := p
    have hred : parse_unsigned s mn mx clamp = boundU mn mx clamp m := by
      unfold parse_unsigned
      rw [hn]
    rw [hred] at h
    exact boundU_ok_bounds _ _ _ _ _ hmm h
  | error e =>
    cases e
    case IntOverflow =>
      have hred : parse_unsigned s mn mx clamp =
          if clamp then boundU mn mx clamp mx else .error .IntOverflow := by
        unfold parse_unsigned
        rw [hn]
      rw [hred] at h
      split_ifs at h
      exact boundU_ok_bounds _ _ _ _ _ hmm h
    case UnexpectedSign =>
      have hred : parse_unsigned s mn mx clamp =
          if clamp then boundU mn mx clamp mn else .error .UnexpectedSign := by
        unfold parse_unsigned
        rw [hn]
      rw [hred] at h
      split_ifs at h
      exact boundU_ok_bounds _ _ _ _ _ hmm h
    all_goals
      simp only [parse_unsigned, hn] at h
    all_goals
      exact absurd h (by simp)

theorem parse_signed_ok_bounds (s : List Nat) (mn mx : Int) (clamp : Bool) (v : Int)
    (hmm : mn ≤ mx) (h : parse_signed s mn mx clamp = .ok v) : mn ≤ v ∧ v ≤ mx := by
  cases hn : number_parse s true with
  | ok p =>
    obtain ⟨m, neg⟩ := p
    have hred : parse_signed s mn mx clamp =
        (if neg then
          if m = I128_MIN_MAGNITUDE then boundI mn mx clamp I128MIN
          else if m ≤ I128MAXn then boundI mn mx clamp (-(m : Int))
          else if clamp then boundI mn mx clamp mn
          else .error .OutOfRange
        else
          if m ≤ I128MAXn then boundI mn mx clamp (m : Int)
          else if clamp then boundI mn mx clamp mx
          else .error .OutOfRange) := by
      unfold parse_signed
      rw [hn]
    rw [hred] at h
    split_ifs at h <;>
      first
        | exact boundI_ok_bounds _ _ _ _ _ hmm h
        | exact absurd h (by simp)
  | error e =>
    have hred : parse_signed s mn mx clamp = .error e := by
      unfold parse_signed
      rw [hn]
    rw [hred] at h
    exact absurd h (by simp)

theorem castI_id (w : Nat) (v : Int) (hw : 1 ≤ w) (h1 : -(2 ^ (w - 1) : Int) ≤ v)
    (h2 : v ≤ (2 ^ (w - 1) : Int) - 1) : castI w v = v := by
  unfold castI
  have hsub : w - 1 + 1 = w := by omega
  have hw2 : ((2 ^ w : Nat) : Int) = 2 * 2 ^ (w - 1) := by
    calc ((2 ^ w : Nat) : Int) = (2 : Int) ^ w := by push_cast; rfl
    _ = 2 ^ (w - 1 + 1) := by rw [hsub]
    _ = 2 * 2 ^ (w - 1) := by ring
  rw [hw2]
  rw [Int.emod_eq_of_lt (by omega) (by omega)]
  ring

/-- C9: with `min ≤ max` inside the width's natural range, every `Ok(v)` of
the underlying `parse_unsigned` / `parse_signed` call — including the clamp
substitutions — satisfies `min ≤ v ≤ max`, so the width adapter's narrowing
cast is the identity on `v` and the adapter returns exactly `v`. -/
theorem c9_width_adapter_value_preserving :
    (∀ (w : Nat) (s : List Nat) (dflt : Option Nat) (mn mx : Nat) (clamp : Bool) (v : Nat),
      mn ≤ mx → mx ≤ 2 ^ w - 1 → parse_unsigned s mn mx clamp = .ok v →
      mn ≤ v ∧ v ≤ mx ∧ v % 2 ^ w = v ∧
        parse_bounded_u w s dflt (some mn) (some mx) clamp = some v) ∧
    (∀ (w : Nat) (s : List Nat) (dflt : Option Int) (mn mx : Int) (clamp : Bool) (v : Int),
      1 ≤ w → mn ≤ mx → -(2 ^ (w - 1) : Int) ≤ mn → mx ≤ (2 ^ (w - 1) : Int) - 1 →
      parse_signed s mn mx clamp = .ok v →
      mn ≤ v ∧ v ≤ mx ∧ castI w v = v ∧
        parse_bounded_i w s dflt (some mn) (some mx) clamp = some v) := by
  constructor
  · intro w s dflt mn mx clamp v hmm hw h
    obtain ⟨h1, h2⟩ := parse_unsigned_ok_bounds s mn mx clamp v hmm h
    have hone : 1 ≤ 2 ^ w := Nat.one_le_two_pow
    have hmod : v % 2 ^ w = v := Nat.mod_eq_of_lt (by omega)
    refine ⟨h1, h2, hmod, ?_⟩
    unfold parse_bounded_u
    simp only [Option.getD_some, h, hmod]
  · intro w s dflt mn mx clamp v hw hmm hlo hhi h
    obtain ⟨h1, h2⟩ := parse_signed_ok_bounds s mn mx clamp v hmm h
    have hcast : castI w v = v := castI_id w v hw (by omega) (by omega)
    refine ⟨h1, h2, hcast, ?_⟩
    unfold parse_bounded_i
    simp only [Option.getD_some, h, hcast]

/-- C9 witness: the 8-bit unsigned adapter at the clamped input `"300"`. -/
theorem c9_width_adapter_value_preserving_witness :
    0 ≤ 255 ∧ 255 ≤ 255 ∧ 255 % 2 ^ 8 = 255 ∧
      parse_bounded_u 8 (strB "300") (some 7) (some 0) (some 255) true = some 255 :=
  c9_width_adapter_value_preserving.1 8 (strB "300") (some 7) 0 255 true 255
    (by decide) (by decide) (by decide)

theorem numLoop_error_mem (radix : Nat) :
    ∀ (l : List Nat) (a : Nat) (saw : Bool) (err : ParseError),
      numLoop radix a saw l = .error err → err = .InvalidDigit ∨ err = .IntOverflow := by
  intro l
  induction l with
  | nil => intro a saw err h; simp [numLoop] at h
  | cons d rest ih =>
    intro a saw err h
    rw [numLoop] at h
    by_cases h95 : d = 95
    · rw [if_pos h95] at h
      exact ih a saw err h
    · rw [if_neg h95] at h
      rcases hd : digitVal d radix with _ | value <;> simp only [hd] at h
      · simp only [Except.error.injEq] at h
        exact Or.inl h.symm
      · by_cases h1 : a * radix > U128MAX
        · rw [if_pos h1] at h
          simp only [Except.error.injEq] at h
          exact Or.inr h.symm
        · rw [if_neg h1] at h
          by_cases h2 : a * radix + value > U128MAX
          · rw [if_pos h2] at h
            simp only [Except.error.injEq] at h
            exact Or.inr h.symm
          · rw [if_neg h2] at h
            exact ih _ _ err h

theorem afterSign_error_mem (t : List Nat) (neg : Bool) (err : ParseError)
    (h : afterSign t neg = .error err) :
    err = .NoDigits ∨ err = .InvalidDigit ∨ err = .IntOverflow := by
  unfold afterSign at h
  split_ifs at h with he
  · simp only [Except.error.injEq] at h
    exact Or.inl h.symm
  · rcases hl : numLoop (radixSplit t).1 0 false (radixSplit t).2 with e | ⟨accum, saw⟩
    · rw [hl] at h
      simp only [Except.error.injEq] at h
      subst h
      rcases numLoop_error_mem _ _ _ _ _ hl with h' | h'
      · exact Or.inr (Or.inl h')
      · exact Or.inr (Or.inr h')
    · rw [hl] at h
      simp only [] at h
      split_ifs at h
      simp only [Except.error.injEq] at h
      exact Or.inl h.symm

theorem numToken_error_mem (t : List Nat) (skip : Bool) (err : ParseError)
    (h : numToken t skip = .error err) :
    err = .UnexpectedSign ∨ err = .NoDigits ∨ err = .InvalidDigit ∨ err = .IntOverflow := by
  unfold numToken at h
  split at h
  · split_ifs at h
    · exact Or.inr (afterSign_error_mem _ _ _ h)
    · simp only [Except.error.injEq] at h
      exact Or.inl h.symm
  · exact Or.inr (afterSign_error_mem _ _ _ h)
  · exact Or.inr (afterSign_error_mem _ _ _ h)

theorem number_parse_empty_iff (s : List Nat) (skip : Bool) :
    number_parse s skip = .error .Empty ↔ trim_ws s = none := by
  constructor
  · intro h
    rcases htr : trim_ws s with _ | ⟨i, e2⟩
    · rfl
    · have hred : number_parse s skip = numToken (byteSlice s i e2) skip := by
        unfold number_parse
        rw [htr]
      rw [hred] at h
      rcases numToken_error_mem _ _ _ h with h' | h' | h' | h' <;> simp at h'
  · intro h
    unfold number_parse
    rw [h]

/-- C7: for every width adapter carrying a caller default (the `parsers`
unsigned, signed and bool functions), the default is returned exactly on an
`Empty` parse failure (empty or all-whitespace input); a parse success
returns the parsed value ignoring the default, and every other error yields
`None`, never the default. -/
theorem c7_default_only_on_empty :
    (∀ (w : Nat) (s : List Nat) (dflt : Option Nat),
      (number_parse s false = .error .Empty → parsers_u w s dflt = dflt) ∧
      (∀ v, parse_unsigned s 0 (2 ^ w - 1) false = .ok v → parsers_u w s dflt = some v) ∧
      (∀ err, parse_unsigned s 0 (2 ^ w - 1) false = .error err → err ≠ .Empty →
        parsers_u w s dflt = none)) ∧
    (∀ (w : Nat) (s : List Nat) (dflt : Option Int), 1 ≤ w →
      (number_parse s true = .error .Empty → parsers_i w s dflt = dflt) ∧
      (∀ v, parse_signed s (-(2 ^ (w - 1) : Int)) ((2 ^ (w - 1) : Int) - 1) false = .ok v →
        parsers_i w s dflt = some v) ∧
      (∀ err, parse_signed s (-(2 ^ (w - 1) : Int)) ((2 ^ (w - 1) : Int) - 1) false =
          .error err → err ≠ .Empty → parsers_i w s dflt = none)) ∧
    (∀ (s : List Nat) (dflt : Option Bool),
      (parse_bool s = .error .Empty → parsers_bool s dflt = dflt) ∧
      (∀ v, parse_bool s = .ok v → parsers_bool s dflt = some v) ∧
      (∀ err, parse_bool s = .error err → err ≠ .Empty → parsers_bool s dflt = none)) ∧
    (∀ s skip, number_parse s skip = .error .Empty ↔ ∀ b ∈ s, isWs b = true) ∧
    parsers_u 8 (strB "") (some 42) = some 42 ∧
    parsers_u 8 (strB "abc") (some 42) = none ∧
    parse_unsigned (strB "abc") 0 255 false = .error .InvalidDigit := by
  refine ⟨?_, ?_, ?_, ?_, by decide, by decide, by decide⟩
  · intro w s dflt
    refine ⟨?_, ?_, ?_⟩
    · intro hnum
      have h : parse_unsigned s 0 (2 ^ w - 1) false = .error .Empty := by
        unfold parse_unsigned
        rw [hnum]
      unfold parsers_u parse_bounded_u
      simp only [Option.getD_none, h]
    · intro v h
      have hb := parse_unsigned_ok_bounds s 0 (2 ^ w - 1) false v (Nat.zero_le _) h
      have hone : 1 ≤ 2 ^ w := Nat.one_le_two_pow
      have hmod : v % 2 ^ w = v := Nat.mod_eq_of_lt (by omega)
      unfold parsers_u parse_bounded_u
      simp only [Option.getD_none, h, hmod]
    · intro err h hne
      unfold parsers_u parse_bounded_u
      simp only [Option.getD_none, h]
  · intro w s dflt hw
    have hpos : (0 : Int) < 2 ^ (w - 1) := by positivity
    refine ⟨?_, ?_, ?_⟩
    · intro hnum
      have h : parse_signed s (-(2 ^ (w - 1) : Int)) ((2 ^ (w - 1) : Int) - 1) false =
          .error .Empty := by
        unfold parse_signed
        rw [hnum]
      unfold parsers_i parse_bounded_i
      simp only [Option.getD_none, h]
    · intro v h
      have hb := parse_signed_ok_bounds s _ _ false v (by omega) h
      have hcast : castI w v = v := castI_id w v hw (by omega) (by omega)
      unfold parsers_i parse_bounded_i
      simp only [Option.getD_none, h, hcast]
    · intro err h hne
      unfold parsers_i parse_bounded_i
      simp only [Option.getD_none, h]
  · intro s dflt
    refine ⟨?_, ?_, ?_⟩
    · intro h
      unfold parsers_bool
      rw [h]
    · intro v h
      unfold parsers_bool
      rw [h]
    · intro err h hne
      unfold parsers_bool
      rw [h]
      cases err <;> first | (exact absurd rfl hne) | rfl
  · intro s skip
    rw [number_parse_empty_iff s skip]
    exact trim_none_iff s

/-- C7 witness: the 8-bit signed adapter substitutes its default on empty
input. -/
theorem c7_default_only_on_empty_witness :
    parsers_i 8 (strB "") (some 5) = some 5 :=
  (c7_default_only_on_empty.2.1 8 (strB "") (some 5) (by decide)).1 (by decide)

theorem digitVal_95 (radix : Nat) : digitVal 95 radix = none := by
  unfold digitVal
  split_ifs <;> first | omega | rfl

theorem digitVal_isSome (d radix : Nat)
    (h : radix = 2 ∨ radix = 8 ∨ radix = 10 ∨ radix = 16) :
    (digitVal d radix).isSome = specDigit radix d := by
  rcases h with rfl | rfl | rfl | rfl <;>
    simp only [digitVal, specDigit, specHexDigit, specOctDigit, specBinDigit, specDecDigit] <;>
    norm_num <;>
    split_ifs <;>
    simp_all <;>
    omega

theorem radixSplit_mem (t : List Nat) :
    (radixSplit t).1 = 2 ∨ (radixSplit t).1 = 8 ∨ (radixSplit t).1 = 10 ∨
      (radixSplit t).1 = 16 := by
  unfold radixSplit
  split <;> simp

theorem foldVal_mono (radix : Nat) (hr : 1 ≤ radix) :
    ∀ (l : List Nat) (a : Nat), a ≤ foldVal radix a l := by
  intro l
  induction l with
  | nil => intro a; simp [foldVal]
  | cons d rest ih =>
    intro a
    rw [foldVal]
    split_ifs with h95
    · exact ih a
    · calc a ≤ a * radix + (digitVal d radix).getD 0 := by
            have := Nat.le_mul_of_pos_right a (show 0 < radix by omega)
            omega
        _ ≤ foldVal radix (a * radix + (digitVal d radix).getD 0) rest := ih _

theorem numLoop_ok_iff (radix : Nat) (hr : 1 ≤ radix) :
    ∀ (l : List Nat) (a : Nat) (saw : Bool) (p : Nat × Bool), a ≤ U128MAX →
      (numLoop radix a saw l = .ok p ↔
        (l.all (fun c => (digitVal c radix).isSome || c == 95) = true ∧
          foldVal radix a l ≤ U128MAX ∧
          p = (foldVal radix a l, saw || l.any (fun c => (digitVal c radix).isSome)))) := by
  intro l
  induction l with
  | nil =>
    intro a saw p ha
    simp only [numLoop, foldVal, List.all_nil, List.any_nil, Bool.or_false]
    constructor
    · intro h
      simp only [Except.ok.injEq] at h
      exact ⟨trivial, ha, h.symm⟩
    · intro ⟨_, _, hp⟩
      rw [hp]
  | cons d rest ih =>
    intro a saw p ha
    by_cases h95 : d = 95
    · subst h95
      rw [numLoop, if_pos rfl, foldVal, if_pos rfl]
      rw [ih a saw p ha]
      simp [digitVal_95]
    · rcases hd : digitVal d radix with _ | v
      · rw [numLoop, if_neg h95]
        simp only [hd]
        simp [List.all_cons, hd, h95]
      · rw [numLoop, if_neg h95]
        simp only [hd]
        rw [foldVal, if_neg h95]
        simp only [hd, Option.getD_some]
        by_cases h1 : a * radix > U128MAX
        · rw [if_pos h1]
          have hmono := foldVal_mono radix hr rest (a * radix + v)
          constructor
          · intro h
            simp at h
          · intro ⟨_, hfit, _⟩
            omega
        · rw [if_neg h1]
          by_cases h2 : a * radix + v > U128MAX
          · rw [if_pos h2]
            have hmono := foldVal_mono radix hr rest (a * radix + v)
            constructor
            · intro h
              simp at h
            · intro ⟨_, hfit, _⟩
              omega
          · rw [if_neg h2]
            rw [ih (a * radix + v) true p (by omega)]
            simp only [List.all_cons, List.any_cons, hd, Option.isSome_some, Bool.true_or,
              Bool.or_true, Bool.true_and]

theorem amendedRun_eq (radix : Nat) (l : List Nat)
    (h : radix = 2 ∨ radix = 8 ∨ radix = 10 ∨ radix = 16) :
    amendedRun radix l =
      (l.all (fun c => (digitVal c radix).isSome || c == 95) &&
        l.any (fun c => (digitVal c radix).isSome)) := by
  have h1 : (fun c => specDigit radix c || c == 95) =
      (fun c : Nat => (digitVal c radix).isSome || c == 95) :=
    funext fun c => by rw [digitVal_isSome c radix h]
  have h2 : (fun c => specDigit radix c) = (fun c : Nat => (digitVal c radix).isSome) :=
    funext fun c => by rw [digitVal_isSome c radix h]
  unfold amendedRun
  rw [h1, h2]

theorem afterSign_ok_iff (t : List Nat) (neg : Bool) (p : Nat × Bool) :
    afterSign t neg = .ok p ↔
      (amendedBody t = true ∧ foldVal (radixSplit t).1 0 (radixSplit t).2 ≤ U128MAX ∧
        p = (foldVal (radixSplit t).1 0 (radixSplit t).2, neg)) := by
  have hmem := radixSplit_mem t
  have hr1 : 1 ≤ (radixSplit t).1 := by rcases hmem with h | h | h | h <;> omega
  have hbody := amendedRun_eq (radixSplit t).1 (radixSplit t).2 hmem
  unfold afterSign
  by_cases he : t.isEmpty
  · rw [if_pos he]
    have ht : t = [] := List.isEmpty_iff.mp he
    subst ht
    simp [amendedBody, amendedRun, radixSplit]
  · rw [if_neg he]
    rcases hl : numLoop (radixSplit t).1 0 false (radixSplit t).2 with e | ⟨accum, saw⟩
    · simp only [hl]
      constructor
      · intro h
        simp at h
      · intro ⟨hb, hfit, hp⟩
        unfold amendedBody at hb
        rw [hbody] at hb
        simp only [Bool.and_eq_true] at hb
        have hok := (numLoop_ok_iff (radixSplit t).1 hr1 (radixSplit t).2 0 false
          (foldVal (radixSplit t).1 0 (radixSplit t).2,
            false || (radixSplit t).2.any (fun c => (digitVal c (radixSplit t).1).isSome))
          (Nat.zero_le _)).mpr ⟨hb.1, hfit, rfl⟩
        rw [hl] at hok
        simp at hok
    · simp only [hl]
      obtain ⟨hall, hfit, hps⟩ := (numLoop_ok_iff (radixSplit t).1 hr1 (radixSplit t).2 0 false
        (accum, saw) (Nat.zero_le _)).mp hl
      simp only [Prod.mk.injEq, Bool.false_or] at hps
      obtain ⟨haccum, hsaw⟩ := hps
      unfold amendedBody
      rw [hbody]
      by_cases hs : saw = true
      · rw [if_pos hs]
        rw [hs] at hsaw
        simp only [Bool.and_eq_true, hall, ← hsaw, true_and, ← haccum]
        constructor
        · intro h
          simp only [Except.ok.injEq] at h
          exact ⟨by rw [haccum]; exact hfit, h.symm⟩
        · intro ⟨_, hp⟩
          rw [hp]
      · rw [if_neg hs]
        have hsf : saw = false := by
          rcases Bool.eq_false_or_eq_true saw with h | h
          · exact absurd h hs
          · exact h
        rw [hsf] at hsaw
        constructor
        · intro h
          simp at h
        · intro ⟨hb, _, _⟩
          simp only [Bool.and_eq_true] at hb
          rw [← hsaw] at hb
          simp at hb

theorem signSplit_default (t : List Nat) (h45 : ∀ r, t ≠ 45 :: r) (h43 : ∀ r, t ≠ 43 :: r) :
    signSplit t = (false, t) := by
  unfold signSplit
  split
  · rename_i r; exact absurd rfl (h45 r)
  · rename_i r; exact absurd rfl (h43 r)
  · rfl

theorem amendedInteger_default (t : List Nat) (skip : Bool) (h45 : ∀ r, t ≠ 45 :: r)
    (h43 : ∀ r, t ≠ 43 :: r) : amendedInteger t skip = amendedBody t := by
  unfold amendedInteger
  split
  · rename_i r; exact absurd rfl (h45 r)
  · rename_i r; exact absurd rfl (h43 r)
  · rfl

theorem numToken_ok_iff (t : List Nat) (skip : Bool) (p : Nat × Bool) :
    numToken t skip = .ok p ↔
      (amendedInteger t skip = true ∧ amendedMagnitude t ≤ U128MAX ∧
        p = (amendedMagnitude t, amendedNeg t)) := by
  unfold numToken
  split
  · rename_i rest
    by_cases hskip : skip = true
    · rw [if_pos hskip, hskip, afterSign_ok_iff]
      simp [amendedInteger, amendedBody, amendedMagnitude, amendedNeg, signSplit]
    · rw [if_neg hskip]
      have hf : skip = false := by
        rcases Bool.eq_false_or_eq_true skip with h | h
        · exact absurd h hskip
        · exact h
      rw [hf]
      simp [amendedInteger, amendedBody, amendedMagnitude, amendedNeg, signSplit]
  · rename_i rest
    rw [afterSign_ok_iff]
    simp [amendedInteger, amendedBody, amendedMagnitude, amendedNeg, signSplit]
  · rename_i h1 h2
    rw [afterSign_ok_iff]
    have h45 : ∀ r, t ≠ 45 :: r := fun r hr => h1 r hr
    have h43 : ∀ r, t ≠ 43 :: r := fun r hr => h2 r hr
    rw [amendedInteger_default t skip h45 h43]
    unfold amendedMagnitude amendedNeg
    rw [signSplit_default t h45 h43]

theorem number_parse_ok_iff (s : List Nat) (skip : Bool) (p : Nat × Bool) :
    number_parse s skip = .ok p ↔
      (∃ i e2, trim_ws s = some (i, e2) ∧
        amendedInteger (byteSlice s i e2) skip = true ∧
        amendedMagnitude (byteSlice s i e2) ≤ U128MAX ∧
        p = (amendedMagnitude (byteSlice s i e2), amendedNeg (byteSlice s i e2))) := by
  rcases htr : trim_ws s with _ | ⟨i, e2⟩
  · unfold number_parse
    rw [htr]
    simp
  · have hred : number_parse s skip = numToken (byteSlice s i e2) skip := by
      unfold number_parse
      rw [htr]
    rw [hred, numToken_ok_iff]
    constructor
    · intro h
      exact ⟨i, e2, rfl, h.1, h.2.1, h.2.2⟩
    · rintro ⟨i', e2', htr', h⟩
      simp only [Option.some.injEq, Prod.mk.injEq] at htr'
      obtain ⟨rfl, rfl⟩ := htr'
      exact h

/-- C3 counterexample: the trimmed input `"0x_1"` is not generated by the §6
grammar (`specInteger`, which requires a hex digit immediately after the
prefix), yet the tokenizer accepts it with magnitude 1; and the 41-nines
decimal string is generated by the grammar, yet the tokenizer rejects it with
`IntOverflow` — both directions of the claim's "exactly when" fail. -/
theorem c3_grammar_counterexample :
    specInteger (strB "0x_1") false = false ∧
    trim_ws (strB "0x_1") = some (0, 4) ∧
    byteSlice (strB "0x_1") 0 4 = strB "0x_1" ∧
    number_parse (strB "0x_1") false = .ok (1, false) ∧
    specInteger (strB "99999999999999999999999999999999999999999") false = true ∧
    number_parse (strB "99999999999999999999999999999999999999999") false =
      .error .IntOverflow :=
  ⟨by decide, by decide, by decide, by decide, by decide, by decide⟩

/-- C3 (amended): the tokenizer succeeds exactly when the trimmed bytes lie
in the language `amendedInteger` — optional sign (`-` only when signed
parsing is requested), optional case-insensitive `0x`/`0o`/`0b` prefix, and a
run of radix digits and `'_'` containing at least one digit, with underscores
permitted anywhere in the run (also directly after the prefix or before the
first decimal digit) — and the magnitude denoted by the digits fits in
`u128`; the value returned is that magnitude with the observed sign.  Every
failure on input with non-empty trimmed content is one of `UnexpectedSign`,
`InvalidDigit`, `NoDigits`, or `IntOverflow`. -/
theorem c3_tokenizer_language (s : List Nat) (skip : Bool) :
    (∀ p, number_parse s skip = .ok p ↔
      (∃ i e2, trim_ws s = some (i, e2) ∧
        amendedInteger (byteSlice s i e2) skip = true ∧
        amendedMagnitude (byteSlice s i e2) ≤ U128MAX ∧
        p = (amendedMagnitude (byteSlice s i e2), amendedNeg (byteSlice s i e2)))) ∧
    (∀ err, number_parse s skip = .error err → trim_ws s ≠ none →
      err = .UnexpectedSign ∨ err = .InvalidDigit ∨ err = .NoDigits ∨ err = .IntOverflow) := by
  constructor
  · intro p
    exact number_parse_ok_iff s skip p
  · intro err h htr
    rcases htrim : trim_ws s with _ | ⟨i, e2⟩
    · exact absurd htrim htr
    · have hred : number_parse s skip = numToken (byteSlice s i e2) skip := by
        unfold number_parse
        rw [htrim]
      rw [hred] at h
      rcases numToken_error_mem _ _ _ h with h' | h' | h' | h'
      · exact Or.inl h'
      · exact Or.inr (Or.inr (Or.inl h'))
      · exact Or.inr (Or.inl h')
      · exact Or.inr (Or.inr (Or.inr h'))

/-- C3 witness: the accepted-language direction at the concrete input
`"0o_7"`. -/
theorem c3_tokenizer_language_witness :
    number_parse (strB "0o_7") false = .ok (7, false) :=
  ((c3_tokenizer_language (strB "0o_7") false).1 (7, false)).mpr
    ⟨0, 4, by decide, by decide, by decide, by decide⟩

theorem toLowerB_not_upper (b : Nat) : ¬(65 ≤ toLowerB b ∧ toLowerB b ≤ 90) := by
  unfold toLowerB
  split_ifs <;> omega

theorem toLowerB_eq_low (b k : Nat) (h1 : k < 65) : toLowerB b = k ↔ b = k := by
  unfold toLowerB
  split_ifs <;> omega

theorem toLowerB_eq_letter (b k : Nat) (h1 : 97 ≤ k) (h2 : k ≤ 122) :
    toLowerB b = k ↔ b = k ∨ b = k - 32 := by
  unfold toLowerB
  split_ifs <;> omega

theorem isWs_toLowerB (b : Nat) : isWs (toLowerB b) = isWs b := by
  unfold toLowerB isWs
  split_ifs with h
  · rw [Bool.eq_iff_iff]
    simp only [Bool.or_eq_true, beq_iff_eq]
    omega
  · rfl

theorem digitVal_toLowerB (d radix : Nat) : digitVal (toLowerB d) radix = digitVal d radix := by
  unfold toLowerB
  split_ifs with h
  · unfold digitVal
    split_ifs <;>
      first
        | rfl
        | omega
        | (simp only [Option.some.injEq]; omega)
  · rfl

theorem getD_map_toLowerB (s : List Nat) (j : Nat) :
    (s.map toLowerB).getD j 0 = toLowerB (s.getD j 0) := by
  rw [List.getD_eq_getElem?_getD, List.getD_eq_getElem?_getD, List.getElem?_map]
  cases s[j]? <;> simp [toLowerB]

theorem fwdScan_map (s : List Nat) :
    ∀ fuel start, fwdScan (s.map toLowerB) fuel start = fwdScan s fuel start := by
  intro fuel
  induction fuel with
  | zero => intro start; rfl
  | succ f ih =>
    intro start
    simp only [fwdScan, List.length_map, getD_map_toLowerB, isWs_toLowerB]
    split_ifs
    · exact ih (start + 1)
    · rfl

theorem backScan_map (s : List Nat) :
    ∀ fuel start e, backScan (s.map toLowerB) fuel start e = backScan s fuel start e := by
  intro fuel
  induction fuel with
  | zero => intro start e; rfl
  | succ f ih =>
    intro start e
    simp only [backScan, getD_map_toLowerB, isWs_toLowerB]
    split_ifs
    · exact ih start (e - 1)
    · rfl

theorem toLowerB_eq_95 (b : Nat) : toLowerB b = 95 ↔ b = 95 := by
  unfold toLowerB
  split_ifs <;> omega

theorem trim_ws_map (s : List Nat) : trim_ws (s.map toLowerB) = trim_ws s := by
  unfold trim_ws
  simp only [List.length_map, fwdScan_map, backScan_map]

theorem byteSlice_map (s : List Nat) (i e : Nat) :
    byteSlice (s.map toLowerB) i e = (byteSlice s i e).map toLowerB := by
  simp [byteSlice, List.map_take, List.map_drop]

theorem numLoop_map (radix : Nat) :
    ∀ (l : List Nat) (a : Nat) (saw : Bool),
      numLoop radix a saw (l.map toLowerB) = numLoop radix a saw l := by
  intro l
  induction l with
  | nil => intro a saw; rfl
  | cons d rest ih =>
    intro a saw
    simp only [List.map_cons]
    rw [numLoop, numLoop]
    by_cases h95 : d = 95
    · rw [if_pos ((toLowerB_eq_95 d).mpr h95), if_pos h95]
      exact ih a saw
    · rw [if_neg (fun hc => h95 ((toLowerB_eq_95 d).mp hc)), if_neg h95]
      rw [digitVal_toLowerB]
      rcases hd : digitVal d radix with _ | v <;> simp only [hd]
      by_cases h1 : a * radix > U128MAX
      · rw [if_pos h1, if_pos h1]
      · rw [if_neg h1, if_neg h1]
        by_cases h2 : a * radix + v > U128MAX
        · rw [if_pos h2, if_pos h2]
        · rw [if_neg h2, if_neg h2]
          exact ih _ _

theorem radixSplit_head (a : Nat) (u : List Nat) (ha : a ≠ 48) :
    radixSplit (a :: u) = (10, a :: u) := by
  unfold radixSplit
  split <;>
    first
      | (rename_i heq; rw [List.cons.injEq] at heq; exact absurd heq.1 ha)
      | rfl

theorem radixSplit_not_letter (b : Nat) (r : List Nat) (h120 : b ≠ 120) (h88 : b ≠ 88)
    (h111 : b ≠ 111) (h79 : b ≠ 79) (h98 : b ≠ 98) (h66 : b ≠ 66) :
    radixSplit (48 :: b :: r) = (10, 48 :: b :: r) := by
  unfold radixSplit
  split <;>
    first
      | (rename_i heq
         rw [List.cons.injEq, List.cons.injEq] at heq
         first
           | exact absurd heq.2.1 h120
           | exact absurd heq.2.1 h88
           | exact absurd heq.2.1 h111
           | exact absurd heq.2.1 h79
           | exact absurd heq.2.1 h98
           | exact absurd heq.2.1 h66)
      | rfl

theorem radixSplit_single (a : Nat) : radixSplit [a] = (10, [a]) := by
  unfold radixSplit
  split <;>
    first
      | rfl
      | (rename_i heq; simp at heq)

theorem radixSplit_map (t : List Nat) :
    (radixSplit (t.map toLowerB)).1 = (radixSplit t).1 ∧
    (radixSplit (t.map toLowerB)).2 = (radixSplit t).2.map toLowerB := by
  rcases t with _ | ⟨a, _ | ⟨b, r⟩⟩
  · exact ⟨rfl, rfl⟩
  · rw [show List.map toLowerB [a] = [toLowerB a] from rfl, radixSplit_single,
      radixSplit_single]
    exact ⟨rfl, rfl⟩
  · by_cases ha : a = 48
    · subst ha
      simp only [List.map_cons]
      rw [show toLowerB 48 = 48 from rfl]
      by_cases hb : b = 120 ∨ b = 88
      · have hl : toLowerB b = 120 := by rcases hb with rfl | rfl <;> rfl
        rw [hl]
        rcases hb with rfl | rfl <;> exact ⟨rfl, rfl⟩
      · by_cases ho : b = 111 ∨ b = 79
        · have hl : toLowerB b = 111 := by rcases ho with rfl | rfl <;> rfl
          rw [hl]
          rcases ho with rfl | rfl <;> exact ⟨rfl, rfl⟩
        · by_cases hbin : b = 98 ∨ b = 66
          · have hl : toLowerB b = 98 := by rcases hbin with rfl | rfl <;> rfl
            rw [hl]
            rcases hbin with rfl | rfl <;> exact ⟨rfl, rfl⟩
          · push_neg at hb ho hbin
            have hup := toLowerB_not_upper b
            have e120 : toLowerB b ≠ 120 := fun hc =>
              (toLowerB_eq_letter b 120 (by omega) (by omega)).mp hc |>.elim
                (fun h => hb.1 h) (fun h => hb.2 (by omega))
            have e111 : toLowerB b ≠ 111 := fun hc =>
              (toLowerB_eq_letter b 111 (by omega) (by omega)).mp hc |>.elim
                (fun h => ho.1 h) (fun h => ho.2 (by omega))
            have e98 : toLowerB b ≠ 98 := fun hc =>
              (toLowerB_eq_letter b 98 (by omega) (by omega)).mp hc |>.elim
                (fun h => hbin.1 h) (fun h => hbin.2 (by omega))
            have e88 : toLowerB b ≠ 88 := fun hc => hup (by omega)
            have e79 : toLowerB b ≠ 79 := fun hc => hup (by omega)
            have e66 : toLowerB b ≠ 66 := fun hc => hup (by omega)
            rw [radixSplit_not_letter (toLowerB b) (r.map toLowerB) e120 e88 e111 e79 e98 e66,
              radixSplit_not_letter b r hb.1 hb.2 ho.1 ho.2 hbin.1 hbin.2]
            refine ⟨rfl, ?_⟩
            simp [show toLowerB 48 = 48 from rfl]
    · have ha' : toLowerB a ≠ 48 := fun hc => ha ((toLowerB_eq_low a 48 (by omega)).mp hc)
      simp only [List.map_cons]
      rw [radixSplit_head (toLowerB a) _ ha', radixSplit_head a _ ha]
      exact ⟨rfl, rfl⟩

theorem afterSign_map (t : List Nat) (neg : Bool) :
    afterSign (t.map toLowerB) neg = afterSign t neg := by
  unfold afterSign
  obtain ⟨h1, h2⟩ := radixSplit_map t
  rw [h1, h2, numLoop_map]
  have hemp : (t.map toLowerB).isEmpty = t.isEmpty := by cases t <;> rfl
  rw [hemp]

theorem numToken_default (u : List Nat) (skip : Bool) (h45 : ∀ r, u ≠ 45 :: r)
    (h43 : ∀ r, u ≠ 43 :: r) : numToken u skip = afterSign u false := by
  unfold numToken
  split
  · rename_i r
    exact absurd rfl (h45 r)
  · rename_i r
    exact absurd rfl (h43 r)
  · rfl

theorem numToken_map (t : List Nat) (skip : Bool) :
    numToken (t.map toLowerB) skip = numToken t skip := by
  rcases t with _ | ⟨b, rest⟩
  · rfl
  · by_cases h45 : b = 45
    · subst h45
      simp only [List.map_cons, show toLowerB 45 = 45 from rfl]
      show (if skip then afterSign (rest.map toLowerB) true else .error .UnexpectedSign) =
        (if skip then afterSign rest true else .error .UnexpectedSign)
      rw [afterSign_map]
    · by_cases h43 : b = 43
      · subst h43
        simp only [List.map_cons, show toLowerB 43 = 43 from rfl]
        show afterSign (rest.map toLowerB) false = afterSign rest false
        exact afterSign_map rest false
      · have l45 : toLowerB b ≠ 45 := fun hc => h45 ((toLowerB_eq_low b 45 (by omega)).mp hc)
        have l43 : toLowerB b ≠ 43 := fun hc => h43 ((toLowerB_eq_low b 43 (by omega)).mp hc)
        simp only [List.map_cons]
        rw [numToken_default (toLowerB b :: rest.map toLowerB) skip
            (fun r hr => l45 (by rw [List.cons.injEq] at hr; exact hr.1))
            (fun r hr => l43 (by rw [List.cons.injEq] at hr; exact hr.1)),
          numToken_default (b :: rest) skip
            (fun r hr => h45 (by rw [List.cons.injEq] at hr; exact hr.1))
            (fun r hr => h43 (by rw [List.cons.injEq] at hr; exact hr.1))]
        simpa using afterSign_map (b :: rest) false

theorem number_parse_map (s : List Nat) (skip : Bool) :
    number_parse (s.map toLowerB) skip = number_parse s skip := by
  unfold number_parse
  rw [trim_ws_map]
  rcases htr : trim_ws s with _ | ⟨i, e2⟩
  · rfl
  · show numToken (byteSlice (s.map toLowerB) i e2) skip = numToken (byteSlice s i e2) skip
    rw [byteSlice_map, numToken_map]

theorem numLoop_filter_underscores (radix : Nat) :
    ∀ (l : List Nat) (a : Nat) (saw : Bool),
      numLoop radix a saw (l.filter (fun c => !(c == 95))) = numLoop radix a saw l := by
  intro l
  induction l with
  | nil => intro a saw; rfl
  | cons d rest ih =>
    intro a saw
    by_cases h95 : d = 95
    · subst h95
      rw [show (95 :: rest).filter (fun c => !(c == 95)) = rest.filter (fun c => !(c == 95))
          from by simp]
      rw [ih a saw, numLoop, if_pos rfl]
    · rw [show (d :: rest).filter (fun c => !(c == 95)) =
          d :: rest.filter (fun c => !(c == 95)) from by simp [h95]]
      rw [numLoop, numLoop, if_neg h95, if_neg h95]
      rcases hd : digitVal d radix with _ | v <;> simp only [hd]
      by_cases h1 : a * radix > U128MAX
      · rw [if_pos h1, if_pos h1]
      · rw [if_neg h1, if_neg h1]
        by_cases h2 : a * radix + v > U128MAX
        · rw [if_pos h2, if_pos h2]
        · rw [if_neg h2, if_neg h2]
          exact ih _ _

/-- C8: the parsed result is invariant under letter-case changes anywhere in
the input (two inputs with the same ASCII-lowercasing tokenize identically,
for both sign modes) and under inserting or removing `'_'` separators in the
digit run (the accumulation loop ignores underscores: filtering them out of
the run leaves the result unchanged); concretely `"0xFF"`, `"0xff"` and
`"0x_f_f_"` all parse to 255 under `parse_unsigned` with full-range bounds. -/
theorem c8_case_underscore_invariance :
    (∀ (s1 s2 : List Nat) (skip : Bool), s1.map toLowerB = s2.map toLowerB →
      number_parse s1 skip = number_parse s2 skip) ∧
    (∀ (radix : Nat) (l : List Nat) (a : Nat) (saw : Bool),
      numLoop radix a saw (l.filter (fun c => !(c == 95))) = numLoop radix a saw l) ∧
    parse_unsigned (strB "0xFF") 0 U128MAX false = .ok 255 ∧
    parse_unsigned (strB "0xff") 0 U128MAX false = .ok 255 ∧
    parse_unsigned (strB "0x_f_f_") 0 U128MAX false = .ok 255 := by
  refine ⟨?_, numLoop_filter_underscores, by decide, by decide, by decide⟩
  intro s1 s2 skip h
  rw [← number_parse_map s1 skip, h, number_parse_map s2 skip]

/-- C8 witness: case invariance at the concrete pair `"0XfF"` / `"0xFf"`. -/
theorem c8_case_underscore_invariance_witness :
    number_parse (strB "0XfF") false = number_parse (strB "0xFf") false :=
  c8_case_underscore_invariance.1 (strB "0XfF") (strB "0xFf") false (by decide)

theorem boolMatch_true_iff (t : List Nat) :
    boolMatch t = .ok true ↔
      (t.map toLowerB = [49] ∨ t.map toLowerB = [116] ∨ t.map toLowerB = [121] ∨
       t.map toLowerB = [111, 110] ∨ t.map toLowerB = [121, 101, 115] ∨
       t.map toLowerB = [116, 114, 117, 101]) := by
  rcases t with _ | ⟨a, _ | ⟨b, _ | ⟨c, _ | ⟨d, _ | ⟨f, _ | ⟨g, tl⟩⟩⟩⟩⟩⟩ <;>
    simp only [boolMatch, List.map_cons, List.map_nil, List.cons.injEq, and_true] <;>
    (try split_ifs) <;>
    simp_all <;>
    unfold toLowerB <;>
    split_ifs <;>
    omega

theorem boolMatch_false_iff (t : List Nat) :
    boolMatch t = .ok false ↔
      (t.map toLowerB = [48] ∨ t.map toLowerB = [102] ∨ t.map toLowerB = [110] ∨
       t.map toLowerB = [110, 111] ∨ t.map toLowerB = [111, 102, 102] ∨
       t.map toLowerB = [102, 97, 108, 115, 101]) := by
  rcases t with _ | ⟨a, _ | ⟨b, _ | ⟨c, _ | ⟨d, _ | ⟨f, _ | ⟨g, tl⟩⟩⟩⟩⟩⟩ <;>
    simp only [boolMatch, List.map_cons, List.map_nil, List.cons.injEq, and_true] <;>
    (try split_ifs) <;>
    simp_all <;>
    unfold toLowerB <;>
    split_ifs <;>
    omega

theorem boolMatch_cases (t : List Nat) :
    boolMatch t = .ok true ∨ boolMatch t = .ok false ∨ boolMatch t = .error .Empty ∨
      boolMatch t = .error .UnknownBoolValue := by
  rcases t with _ | ⟨a, _ | ⟨b, _ | ⟨c, _ | ⟨d, _ | ⟨f, _ | ⟨g, tl⟩⟩⟩⟩⟩⟩ <;>
    simp only [boolMatch] <;>
    (try split_ifs) <;>
    simp

/-- C6: `parse_bool` returns `Empty` exactly when the trimmed content is
empty; otherwise it returns `Ok true` exactly when the lowercased trimmed
bytes are one of `1`,`t`,`y`,`on`,`yes`,`true`, `Ok false` exactly when they
are one of `0`,`f`,`n`,`no`,`off`,`false`, `UnknownBoolValue` for every other
trimmed content, and no other result is ever produced. -/
theorem c6_parse_bool_characterization (s : List Nat) :
    (parse_bool s = .error .Empty ↔ trim_ws s = none) ∧
    (∀ i e2, trim_ws s = some (i, e2) →
      ((parse_bool s = .ok true ↔
        ((byteSlice s i e2).map toLowerB = [49] ∨ (byteSlice s i e2).map toLowerB = [116] ∨
         (byteSlice s i e2).map toLowerB = [121] ∨
         (byteSlice s i e2).map toLowerB = [111, 110] ∨
         (byteSlice s i e2).map toLowerB = [121, 101, 115] ∨
         (byteSlice s i e2).map toLowerB = [116, 114, 117, 101])) ∧
       (parse_bool s = .ok false ↔
        ((byteSlice s i e2).map toLowerB = [48] ∨ (byteSlice s i e2).map toLowerB = [102] ∨
         (byteSlice s i e2).map toLowerB = [110] ∨
         (byteSlice s i e2).map toLowerB = [110, 111] ∨
         (byteSlice s i e2).map toLowerB = [111, 102, 102] ∨
         (byteSlice s i e2).map toLowerB = [102, 97, 108, 115, 101])) ∧
       (parse_bool s = .error .UnknownBoolValue ↔
        (¬((byteSlice s i e2).map toLowerB = [49] ∨ (byteSlice s i e2).map toLowerB = [116] ∨
           (byteSlice s i e2).map toLowerB = [121] ∨
           (byteSlice s i e2).map toLowerB = [111, 110] ∨
           (byteSlice s i e2).map toLowerB = [121, 101, 115] ∨
           (byteSlice s i e2).map toLowerB = [116, 114, 117, 101]) ∧
         ¬((byteSlice s i e2).map toLowerB = [48] ∨ (byteSlice s i e2).map toLowerB = [102] ∨
           (byteSlice s i e2).map toLowerB = [110] ∨
           (byteSlice s i e2).map toLowerB = [110, 111] ∨
           (byteSlice s i e2).map toLowerB = [111, 102, 102] ∨
           (byteSlice s i e2).map toLowerB = [102, 97, 108, 115, 101]))))) ∧
    (parse_bool s = .ok true ∨ parse_bool s = .ok false ∨ parse_bool s = .error .Empty ∨
      parse_bool s = .error .UnknownBoolValue) := by
  refine ⟨?_, ?_, ?_⟩
  · constructor
    · intro h
      rcases htr : trim_ws s with _ | ⟨i, e2⟩
      · rfl
      · exact absurd h (parse_bool_ne_empty s i e2 htr)
    · intro h
      unfold parse_bool
      rw [h]
  · intro i e2 htrim
    have hred := parse_bool_some s i e2 htrim
    have hne := byteSlice_ne_nil s i e2 htrim
    rw [hred]
    refine ⟨boolMatch_true_iff _, boolMatch_false_iff _, ?_⟩
    constructor
    · intro h
      constructor
      · intro hT
        have hok := (boolMatch_true_iff _).mpr hT
        rw [h] at hok
        simp at hok
      · intro hF
        have hok := (boolMatch_false_iff _).mpr hF
        rw [h] at hok
        simp at hok
    · intro ⟨hnT, hnF⟩
      rcases boolMatch_cases (byteSlice s i e2) with hc | hc | hc | hc
      · exact absurd ((boolMatch_true_iff _).mp hc) hnT
      · exact absurd ((boolMatch_false_iff _).mp hc) hnF
      · exact absurd hc (boolMatch_ne_empty _ hne)
      · exact hc
  · rcases htr : trim_ws s with _ | ⟨i, e2⟩
    · right
      right
      left
      unfold parse_bool
      rw [htr]
    · rw [parse_bool_some s i e2 htr]
      exact boolMatch_cases _

/-- C6 witness: the characterization instantiated at the input `" On "`. -/
theorem c6_parse_bool_characterization_witness :
    parse_bool (strB " On ") = .ok true :=
  (((c6_parse_bool_characterization (strB " On ")).2.1 1 3 (by decide)).1).mpr
    (by decide)
